/-
Verification of the LEVEL UP backend (src/server.js) against its
natural-language specification.

Shallow embedding conventions:
* JS numbers that hold scores/counts are embedded as integers (ℤ or ℕ);
  intermediate means are exact rationals (ℚ).  JS Math.round(x) is
  floor(x + 1/2), embedded as jround.  Division is exact rational
  division (the double-precision rounding of the source is not modelled;
  all claims under study are exercised on small integer inputs).
* Date values are embedded as integer millisecond timestamps; jwt
  timestamps as integer seconds.  new Date() at handler time is the
  explicit parameter nowMs.
* Request-body fields are embedded as Option values: none is an absent
  (undefined) JSON field, some v a present integer / string value.
* NaN results (e.g. Math.round(undefined / a * 100)) are embedded as
  none in an Option ℤ valued field.
* The in-memory arrays (users, mockTests) form ServerState; each handler
  is a pure function from state (plus request data) to state × response.
-/
import Mathlib

/-- JS Math.round: rounds half-up, i.e. Math.round x = floor (x + 1/2). -/
def jround (q : ℚ) : ℤ :=
  Rat.floor (q + 1/2)

/-- JS parseInt(x) || d on an optional integer field: undefined parses to
NaN (falsy, so the default d is used) and 0 is falsy too, so the default
is also used for a present 0. -/
def jsParseIntOr (x : Option ℤ) (d : ℤ) : ℤ :=
  match x with
  | none => d
  | some n => if n = 0 then d else n

/-- JS truthiness test !testName for an optional string field: absent and
the empty string are falsy. -/
def testNameFalsy (x : Option String) : Bool :=
  match x with
  | none => true
  | some s => s = ""

/-- A recorded mock test (the newTest object built by POST /api/mock-test).
accuracy is Option ℤ: none embeds the NaN produced when the raw body has
attempted > 0 but no numeric correct field. -/
structure Test where
  id : String
  testName : String
  score : ℤ
  attempted : ℤ
  correct : ℤ
  incorrect : ℤ
  date : ℤ
  accuracy : Option ℤ
  deriving DecidableEq, Repr

/-- A user record of the in-memory users array. -/
structure User where
  id : String
  googleId : String
  email : String
  name : String
  avatar : String
  role : String
  mockTests : List Test
  totalTests : ℕ
  averageScore : ℤ
  bestScore : ℤ
  joinedDate : ℤ
  lastLogin : ℤ
  deriving DecidableEq, Repr

/-- An entry of the global mockTests analytics array: the denormalized
copy {...newTest, userId, userEmail, userName}. -/
structure LedgerTest where
  test : Test
  userId : String
  userEmail : String
  userName : String
  deriving DecidableEq, Repr

/-- The whole in-memory server state: let users = []; let mockTests = []. -/
structure ServerState where
  users : List User
  mockTests : List LedgerTest
  deriving DecidableEq, Repr

/-- The user created on first OAuth login (zeroed aggregates, role
student, empty history). -/
def freshUser (nowMs : ℤ) (googleId email name avatar : String) : User :=
  { id := toString nowMs
    googleId := googleId
    email := email
    name := name
    avatar := avatar
    role := "student"
    mockTests := []
    totalTests := 0
    averageScore := 0
    bestScore := 0
    joinedDate := nowMs
    lastLogin := nowMs }

/-- Sum of the score fields of a test history (reduce((sum,t) => sum+t.score, 0)). -/
def sumScores (l : List Test) : ℤ :=
  (l.map Test.score).sum

/-- The request body of POST /api/mock-test
({ testName, score, attempted, correct, incorrect }), restricted to the
universe of absent-or-integer (resp. absent-or-string) JSON fields. -/
structure TestBody where
  testName : Option String
  score : Option ℤ
  attempted : Option ℤ
  correct : Option ℤ
  incorrect : Option ℤ
  deriving DecidableEq, Repr

/-- The accuracy field of newTest:
attempted > 0 ? Math.round((correct / attempted) * 100) : 0.
It reads the RAW body fields (not the parseInt-defaulted ones!): an
absent attempted makes the comparison false (accuracy 0), an absent
correct with positive attempted gives NaN (none). -/
def rawAccuracy (body : TestBody) : Option ℤ :=
  match body.attempted with
  | none => some 0
  | some a =>
    if 0 < a then
      match body.correct with
      | none => none
      | some c => some (jround ((c : ℚ) / (a : ℚ) * 100))
    else some 0

/-- The newTest object built by POST /api/mock-test after validation.
nowMs plays Date.now() (id and date). -/
def buildTest (nowMs : ℤ) (body : TestBody) : Test :=
  { id := toString nowMs
    testName := (body.testName).getD ""
    score := (body.score).getD 0
    attempted := jsParseIntOr body.attempted 120
    correct := jsParseIntOr body.correct 0
    incorrect := jsParseIntOr body.incorrect 0
    date := nowMs
    accuracy := rawAccuracy body }

/-- The per-user mutation of an accepted submission: push the test, bump
totalTests, recompute averageScore as the rounded mean of the stored
history, and take the running max for bestScore. -/
def applyTest (u : User) (t : Test) : User :=
  let mt := u.mockTests ++ [t]
  let total := u.totalTests + 1
  { u with
    mockTests := mt
    totalTests := total
    averageScore := jround ((sumScores mt : ℚ) / (total : ℚ))
    bestScore := max u.bestScore t.score }

/-- The denormalized global-ledger copy {...newTest, userId, userEmail,
userName} (identity fields read from the submitting user). -/
def mkLedgerTest (u : User) (t : Test) : LedgerTest :=
  { test := t, userId := u.id, userEmail := u.email, userName := u.name }

/-- JS users.find(u => u.id === uid). -/
def findUserById (users : List User) (uid : String) : Option User :=
  users.find? (fun u => u.id = uid)

/-- The source mutates the object found by users.find in place; in the
embedding this is: rewrite the first list entry whose id matches, keep
everything else (order included). -/
def updateFirstById (users : List User) (uid : String) (f : User → User) : List User :=
  match users with
  | [] => []
  | u :: rest => if u.id = uid then f u :: rest else u :: updateFirstById rest uid f

/-- Response of POST /api/mock-test.  validationError is the 400
{error: 'Test name and score are required'}; userNotFound the 404; a
success carries the mutated user (the handler serializes its
id/name/email/totalTests/averageScore/bestScore) and the new test. -/
inductive MockTestResponse where
  | validationError
  | userNotFound
  | success (user : User) (test : Test)
  deriving DecidableEq, Repr

/-- POST /api/mock-test after authentication: validate, find the user,
build the test, mutate the user, append to the global ledger. -/
def postMockTest (nowMs : ℤ) (uid : String) (body : TestBody) (st : ServerState) :
    ServerState × MockTestResponse :=
  if testNameFalsy body.testName ∨ body.score = none then
    (st, .validationError)
  else
    match findUserById st.users uid with
    | none => (st, .userNotFound)
    | some u =>
      let t := buildTest nowMs body
      ( { users := updateFirstById st.users uid (fun v => applyTest v t)
          mockTests := st.mockTests ++ [mkLedgerTest u t] },
        .success (applyTest u t) t )

/-- Mean of the scores of a test window (exact rational). -/
def avgScore (l : List Test) : ℚ :=
  (sumScores l : ℚ) / (l.length : ℚ)

/-- calculateImprovement: slice(-3) is drop (n-3) (the whole list when
n < 3), slice(0, Math.max(1, n-3)) is take (max 1 (n-3)). -/
def calculateImprovement (tests : List Test) : ℤ :=
  if tests.length < 2 then 0
  else
    let recent := tests.drop (tests.length - 3)
    let earlier := tests.take (max 1 (tests.length - 3))
    if earlier.length = 0 then 0
    else jround (avgScore recent - avgScore earlier)

/-- Population variance of a score list (exact rational). -/
def variancePop (scores : List ℤ) : ℚ :=
  let n : ℚ := (scores.length : ℚ)
  let mean : ℚ := (scores.sum : ℚ) / n
  ((scores.map (fun s => ((s : ℚ) - mean) ^ 2)).sum) / n

/-- calculateConsistency.  The source compares
Math.sqrt(variance) with 5 / 10 / 15; since both sides are nonnegative
this is equivalent to comparing the variance with 25 / 100 / 225, which
keeps the definition executable (the equivalence with the sqrt form is
proved in the consistency theorem). -/
def calculateConsistency (tests : List Test) : String :=
  if tests.length < 3 then "Insufficient Data"
  else
    let v := variancePop (tests.map Test.score)
    if v < 25 then "Very Consistent"
    else if v < 100 then "Consistent"
    else if v < 225 then "Moderately Consistent"
    else "Needs Focus"

/-- Milliseconds in 7 days: the span subtracted by
oneWeekAgo.setDate(getDate() - 7) (exact in the UTC timeline). -/
def weekMs : ℤ := 604800000

/-- The {date, score, testName} projection returned by
calculateWeeklyProgress. -/
structure WeekEntry where
  date : ℤ
  score : ℤ
  testName : String
  deriving DecidableEq, Repr

/-- calculateWeeklyProgress: empty for fewer than 2 tests, else keep the
tests dated within the trailing week of nowMs and project them. -/
def calculateWeeklyProgress (nowMs : ℤ) (tests : List Test) : List WeekEntry :=
  if tests.length < 2 then []
  else
    (tests.filter (fun t => nowMs - weekMs ≤ t.date)).map
      (fun t => { date := t.date, score := t.score, testName := t.testName })

/-- A leaderboard row: {rank, name, email, score, tests, bestScore,
lastActive}. -/
structure LBEntry where
  rank : ℕ
  name : String
  email : String
  score : ℤ
  tests : ℕ
  bestScore : ℤ
  lastActive : ℤ
  deriving DecidableEq, Repr

/-- The leaderboard row built from a user at a given rank. -/
def mkRow (r : ℕ) (u : User) : LBEntry :=
  { rank := r, name := u.name, email := u.email, score := u.averageScore,
    tests := u.totalTests, bestScore := u.bestScore, lastActive := u.lastLogin }

/-- map((user, index) => ({rank: index + 1, ...})): map with a running
rank counter. -/
def rankFrom (r : ℕ) : List User → List LBEntry
  | [] => []
  | u :: rest => mkRow r u :: rankFrom (r + 1) rest

/-- The comparator (a, b) => b.averageScore - a.averageScore as the
total boolean order fed to the stable sort: a may stay before b iff
b.averageScore ≤ a.averageScore. -/
def lbLE (a b : User) : Bool :=
  b.averageScore ≤ a.averageScore

/-- GET /api/leaderboard: keep the users with totalTests > 0, stable-sort
by averageScore descending (Array.prototype.sort is stable; mergeSort is
its stable embedding), cap at 20 and attach ranks 1, 2, ... -/
def apiLeaderboard (st : ServerState) : List LBEntry :=
  rankFrom 1 (((st.users.filter (fun u => 0 < u.totalTests)).mergeSort lbLE).take 20)

/-- The claims carried by the session token: jwt.sign({id, email, role}). -/
structure TokenClaims where
  id : String
  email : String
  role : String
  deriving DecidableEq, Repr

/-- A bearer token as the verifier sees it: its payload, its issuance
time (seconds) and whether its signature checks out against the server
secret (the HMAC itself is abstracted into this flag). -/
structure Token where
  claims : TokenClaims
  issuedAt : ℤ
  signatureValid : Bool
  deriving DecidableEq, Repr

/-- Seconds in the 7-day expiresIn window of jwt.sign. -/
def weekSec : ℤ := 604800

/-- jwt.verify(token, JWT_SECRET): succeeds with the claims iff the
signature is valid and the clock has not reached the expiry
issuedAt + 7 days set at signing. -/
def verifyToken (nowSec : ℤ) (t : Token) : Option TokenClaims :=
  if t.signatureValid ∧ nowSec < t.issuedAt + weekSec then some t.claims else none

/-- Outcome of a bearer-protected route: the 401
{error: 'Access token required'}, the 403 {error: 'Invalid token'}, or
the wrapped handler's own response. -/
inductive RouteResult (ρ : Type) where
  | missingToken401 : RouteResult ρ
  | invalidToken403 : RouteResult ρ
  | handled : ρ → RouteResult ρ
  deriving DecidableEq, Repr

/-- The authenticateToken middleware around a handler: no bearer token
means 401 (next is never called), a token failing jwt.verify means 403,
otherwise the handler runs with the token's claims. -/
def protectedRoute {ρ : Type} (nowSec : ℤ) (bearer : Option Token)
    (handler : TokenClaims → ServerState → ServerState × ρ)
    (st : ServerState) : ServerState × RouteResult ρ :=
  match bearer with
  | none => (st, .missingToken401)
  | some t =>
    match verifyToken nowSec t with
    | none => (st, .invalidToken403)
    | some claims =>
      let r := handler claims st
      (r.1, .handled r.2)

/-- JSON values, as far as the user-route response bodies need them.
null embeds both JSON null and the serialization of NaN. -/
inductive JVal where
  | str : String → JVal
  | int : ℤ → JVal
  | arr : List JVal → JVal
  | jnull : JVal

/-- Serialization of a stored test (dates rendered as their millisecond
timestamp; a NaN accuracy serializes to null). -/
def testJson (t : Test) : JVal :=
  .arr [.str t.id, .str t.testName, .int t.score, .int t.attempted,
        .int t.correct, .int t.incorrect, .int t.date,
        match t.accuracy with
        | some a => .int a
        | none => .jnull]

/-- The enumerable own fields of a user record, in declaration order —
what the object spread of the source iterates over. -/
def userJson (u : User) : List (String × JVal) :=
  [("id", .str u.id), ("googleId", .str u.googleId), ("email", .str u.email),
   ("name", .str u.name), ("avatar", .str u.avatar), ("role", .str u.role),
   ("mockTests", .arr (u.mockTests.map testJson)), ("totalTests", .int u.totalTests),
   ("averageScore", .int u.averageScore), ("bestScore", .int u.bestScore),
   ("joinedDate", .int u.joinedDate), ("lastLogin", .int u.lastLogin)]

/-- const \x7b googleId, ...userWithoutGoogleId \x7d = user: every own
field except googleId, order preserved. -/
def stripGoogleId (fields : List (String × JVal)) : List (String × JVal) :=
  fields.filter (fun kv => kv.1 ≠ "googleId")

/-- GET /api/user (after authentication): status and JSON object body. -/
def getApiUser (uid : String) (st : ServerState) : ℕ × List (String × JVal) :=
  match st.users.find? (fun u => u.id = uid) with
  | none => (404, [("error", .str "User not found")])
  | some u => (200, stripGoogleId (userJson u))

/-- GET /api/user/:email (public): status and JSON object body. -/
def getApiUserByEmail (email : String) (st : ServerState) : ℕ × List (String × JVal) :=
  match st.users.find? (fun u => u.email = email) with
  | none => (404, [("error", .str "User not found")])
  | some u => (200, stripGoogleId (userJson u))

/-- A concrete test record used by the worked examples: only the score
matters to the analytics functions under study. -/
def sampleTest (s : ℤ) : Test :=
  { id := "t", testName := "T", score := s, attempted := 120, correct := 0,
    incorrect := 0, date := 0, accuracy := some 0 }

/-- A body is accepted by the validation gate of POST /api/mock-test. -/
def validBody (b : TestBody) : Prop :=
  testNameFalsy b.testName = false ∧ b.score ≠ none

instance (b : TestBody) : Decidable (validBody b) :=
  inferInstanceAs (Decidable (_ ∧ _))

/-- Run a sequence of (Date.now(), body) submissions of one user through
POST /api/mock-test, threading the state. -/
def submitAll (uid : String) (subs : List (ℤ × TestBody)) (st : ServerState) : ServerState :=
  subs.foldl (fun s p => (postMockTest p.1 uid p.2 s).1) st

/-- The test carried by a success response, if any. -/
def responseTest : MockTestResponse → Option Test
  | .success _ t => some t
  | _ => none

/-- The mutated user carried by a success response, if any. -/
def responseUser : MockTestResponse → Option User
  | .success u _ => some u
  | _ => none

/-- The aggregate invariant of a user record: totalTests counts the
history, averageScore is the rounded mean of the recorded scores (for a
nonempty history) and bestScore is the running maximum, seeded with the
initial 0, of the recorded scores. -/
def AggInv (u : User) : Prop :=
  u.totalTests = u.mockTests.length
  ∧ (u.mockTests ≠ [] →
      u.averageScore = jround ((sumScores u.mockTests : ℚ) / (u.mockTests.length : ℚ)))
  ∧ u.bestScore = (u.mockTests.map Test.score).foldl max 0

/-- A concrete stored user for closed instances of the handler theorems. -/
def wUser : User :=
  { freshUser 0 "g" "e" "n" "a" with id := "u1" }

/-- A concrete one-user state for closed instances of the handler theorems. -/
def wState : ServerState :=
  { users := [wUser], mockTests := [] }

/-- A concrete body submitting attempted = 0. -/
def wBodyA0 : TestBody :=
  { testName := some "Mock", score := some 80, attempted := some 0,
    correct := some 50, incorrect := none }

/-- A concrete plain body (only testName and score present). -/
def wBody : TestBody :=
  { testName := some "T", score := some 50, attempted := none,
    correct := none, incorrect := none }

/-- A concrete user with a nonzero test count (leaderboard-eligible). -/
def wActive : User :=
  { wUser with totalTests := 3, averageScore := 72 }

/-- A concrete state holding one leaderboard-eligible user. -/
def wActiveState : ServerState :=
  { users := [wActive], mockTests := [] }

/-- A concrete well-signed token issued at time 0. -/
def wToken : Token :=
  { claims := { id := "u1", email := "e", role := "student" },
    issuedAt := 0, signatureValid := true }

/-- Claim C1, counterexample: one accepted submission with score -5 from a
fresh user leaves bestScore at its initial 0 (Math.max(0, -5)), while the
maximum recorded score is -5 — so bestScore does not equal the maximum of
all recorded scores. -/
theorem bestScore_negative_counterexample :
    ((submitAll "1000"
        [(2000, { testName := some "Mock 1", score := some (-5),
                  attempted := none, correct := none, incorrect := none })]
        { users := [freshUser 1000 "g" "e" "n" "a"], mockTests := [] }).users.map
      (fun u => (u.mockTests.map Test.score, u.bestScore))) = [([-5], 0)]
    ∧ ((0 : ℤ) ≠ -5) := by
  with_unfolding_all decide

/-- Claim C2, counterexample: for the two-test history with scores 0 and
10 the window of tests before the last three is empty, so the claim
demands 0, but the code compares the mean of both tests (5) with the
first test (0) and returns 5. -/
theorem improvement_short_history_counterexample :
    calculateImprovement ([0, 10].map sampleTest) = 5
    ∧ ([0, 10].map sampleTest).take (([0, 10].map sampleTest).length - 3) = []
    ∧ ((5 : ℤ) ≠ 0) := by
  with_unfolding_all decide

/-- Claim C3, counterexample: a submission with attempted = 0 — a present,
numeric value — is stored with attempted = 120, because parseInt(0) is
falsy; the claim allows the 120 default exactly for absent or non-numeric
values. -/
theorem attempted_zero_default_counterexample :
    (responseTest (postMockTest 0 "u1"
        { testName := some "Mock", score := some 80, attempted := some 0,
          correct := some 50, incorrect := none }
        { users := [{ freshUser 0 "g" "e" "n" "a" with id := "u1" }],
          mockTests := [] }).2).map Test.attempted = some 120
    ∧ ((0 : ℤ) ≠ 120) := by
  with_unfolding_all decide

/-- Claim C4, counterexample: a history holding exactly one test, dated at
evaluation time (so inside the trailing week), yields the empty list — the
tests.length < 2 guard drops it — where the claim demands that one test. -/
theorem weekly_progress_single_test_counterexample :
    calculateWeeklyProgress 1209600000 [{ sampleTest 70 with date := 1209600000 }] = []
    ∧ ((1209600000 : ℤ) - weekMs ≤ (1209600000 : ℤ))
    ∧ ([] : List WeekEntry) ≠ [{ date := 1209600000, score := 70, testName := "T" }] := by
  with_unfolding_all decide

/-- Claim C8, counterexample: a body whose testName is present but the
empty string (and whose score is present) is rejected with the 400
validation error, although the claim restricts the 400 to a missing
testName or undefined score. -/
theorem empty_testname_counterexample :
    (postMockTest 0 "u1"
        { testName := some "", score := some 50, attempted := none,
          correct := none, incorrect := none }
        { users := [], mockTests := [] }).2 = MockTestResponse.validationError := by
  with_unfolding_all decide

/-- Claim C2 (amended): 0 for fewer than 2 tests; otherwise the rounded
difference between the mean of the last min(3, n) tests and the mean of
the first max(1, n-3) tests — which is the window of all tests before the
last three only when n ≥ 4 (for n = 2 or 3 it is the first test, which
overlaps the recent window); the guard returning 0 for an empty earlier
window is unreachable.  The worked example [60,62,64,90,92,94] gives 30. -/
theorem improvement_windows_amended :
    (∀ tests : List Test,
      (tests.length < 2 → calculateImprovement tests = 0)
      ∧ (2 ≤ tests.length →
          calculateImprovement tests =
            jround (avgScore (tests.drop (tests.length - 3)) -
                    avgScore (tests.take (max 1 (tests.length - 3)))))
      ∧ (4 ≤ tests.length →
          calculateImprovement tests =
            jround (avgScore (tests.drop (tests.length - 3)) -
                    avgScore (tests.take (tests.length - 3)))))
    ∧ calculateImprovement ([60, 62, 64, 90, 92, 94].map sampleTest) = 30 := by
  constructor
  · intro tests
    have key : 2 ≤ tests.length →
        calculateImprovement tests =
          jround (avgScore (tests.drop (tests.length - 3)) -
                  avgScore (tests.take (max 1 (tests.length - 3)))) := by
      intro h2
      have hne : (tests.take (max 1 (tests.length - 3))).length ≠ 0 := by
        rw [List.length_take]; omega
      unfold calculateImprovement
      rw [if_neg (by omega), if_neg hne]
    refine ⟨fun h => by simp [calculateImprovement, h], key, fun h4 => ?_⟩
    have hmax : max 1 (tests.length - 3) = tests.length - 3 := by omega
    rw [key (by omega), hmax]
  · with_unfolding_all rfl

/-- Witness for the amended improvement claim at concrete histories:
one test (short-history branch) and the six-test worked example
(n ≥ 4 branch). -/
theorem improvement_windows_amended_witness :
    (([7].map sampleTest).length < 2 ∧ calculateImprovement ([7].map sampleTest) = 0)
    ∧ (4 ≤ (([60, 62, 64, 90, 92, 94]).map sampleTest).length ∧
        calculateImprovement (([60, 62, 64, 90, 92, 94]).map sampleTest) =
          jround (avgScore ((([60, 62, 64, 90, 92, 94]).map sampleTest).drop
                    ((([60, 62, 64, 90, 92, 94]).map sampleTest).length - 3)) -
                  avgScore ((([60, 62, 64, 90, 92, 94]).map sampleTest).take
                    ((([60, 62, 64, 90, 92, 94]).map sampleTest).length - 3)))) :=
  ⟨⟨by decide, (improvement_windows_amended.1 _).1 (by decide)⟩,
   ⟨by decide, (improvement_windows_amended.1 _).2.2 (by decide)⟩⟩

/-- Claim C4 (amended): the weekly progress of a history with fewer than
2 tests is empty (regardless of dates); for histories of at least 2 tests
it holds exactly the {date, score, testName} projections of the tests
dated within the trailing 7 days of evaluation time, as a subsequence of
the projected history (original order, no re-sort). -/
theorem weekly_progress_amended :
    ∀ (nowMs : ℤ) (tests : List Test),
      (tests.length < 2 → calculateWeeklyProgress nowMs tests = [])
      ∧ (2 ≤ tests.length →
          (∀ e : WeekEntry, e ∈ calculateWeeklyProgress nowMs tests ↔
             ∃ t ∈ tests, nowMs - weekMs ≤ t.date ∧
               e = { date := t.date, score := t.score, testName := t.testName })
          ∧ List.Sublist (calculateWeeklyProgress nowMs tests)
              (tests.map (fun t => { date := t.date, score := t.score, testName := t.testName }))) := by
  intro nowMs tests
  constructor
  · intro h
    simp [calculateWeeklyProgress, h]
  · intro h2
    have hrw : calculateWeeklyProgress nowMs tests =
        (tests.filter (fun t => nowMs - weekMs ≤ t.date)).map
          (fun t => { date := t.date, score := t.score, testName := t.testName }) := by
      unfold calculateWeeklyProgress
      rw [if_neg (by omega)]
    refine ⟨fun e => ?_, ?_⟩
    · rw [hrw]
      simp only [List.mem_map, List.mem_filter, decide_eq_true_eq]
      constructor
      · rintro ⟨t, ⟨ht, hd⟩, he⟩
        exact ⟨t, ht, hd, he.symm⟩
      · rintro ⟨t, ht, hd, he⟩
        exact ⟨t, ⟨ht, hd⟩, he.symm⟩
    · rw [hrw]
      exact List.Sublist.map _ (List.filter_sublist _)

/-- Witness for the amended weekly-progress claim: the one-test history
(empty result) and a two-test history (filter + projection view). -/
theorem weekly_progress_amended_witness :
    (([ sampleTest 70 ]).length < 2 ∧ calculateWeeklyProgress 0 [sampleTest 70] = [])
    ∧ (2 ≤ ([sampleTest 70, sampleTest 80]).length ∧
        (∀ e : WeekEntry, e ∈ calculateWeeklyProgress 0 [sampleTest 70, sampleTest 80] ↔
           ∃ t ∈ [sampleTest 70, sampleTest 80], (0 : ℤ) - weekMs ≤ t.date ∧
             e = { date := t.date, score := t.score, testName := t.testName })
        ∧ List.Sublist (calculateWeeklyProgress 0 [sampleTest 70, sampleTest 80])
            ([sampleTest 70, sampleTest 80].map
              (fun t => { date := t.date, score := t.score, testName := t.testName }))) :=
  ⟨⟨by decide, (weekly_progress_amended 0 [sampleTest 70]).1 (by decide)⟩,
   ⟨by decide, (weekly_progress_amended 0 [sampleTest 70, sampleTest 80]).2 (by decide)⟩⟩

/-- Claim C8 (amended): POST /api/mock-test responds with the 400
validation error exactly when the submitted testName is falsy — absent OR
the empty string — or the score is undefined; a submission with score 0
and a nonempty testName passes validation; and on a 400 the state (user
records and global ledger) is unchanged. -/
theorem mocktest_validation_amended :
    ∀ (nowMs : ℤ) (uid : String) (body : TestBody) (st : ServerState),
      ((postMockTest nowMs uid body st).2 = MockTestResponse.validationError ↔
        (testNameFalsy body.testName = true ∨ body.score = none))
      ∧ ((postMockTest nowMs uid body st).2 = MockTestResponse.validationError →
          (postMockTest nowMs uid body st).1 = st)
      ∧ (∀ s : String, body.testName = some s → s ≠ "" → body.score = some 0 →
          (postMockTest nowMs uid body st).2 ≠ MockTestResponse.validationError) := by
  intro nowMs uid body st
  by_cases hv : (testNameFalsy body.testName ∨ body.score = none : Prop)
  · have h2 : (postMockTest nowMs uid body st).2 = MockTestResponse.validationError := by
      simp [postMockTest, hv]
    have h1 : (postMockTest nowMs uid body st).1 = st := by
      simp [postMockTest, hv]
    refine ⟨?_, fun _ => h1, ?_⟩
    · rcases hv with hv | hv
      · simp [h2, hv]
      · simp [h2, hv]
    · intro s hs hne hsc
      rcases hv with hv | hv
      · rw [hs] at hv
        simp [testNameFalsy] at hv
        exact absurd hv hne
      · rw [hsc] at hv
        cases hv
  · have h2 : (postMockTest nowMs uid body st).2 ≠ MockTestResponse.validationError := by
      unfold postMockTest
      rw [if_neg hv]
      cases hfind : findUserById st.users uid with
      | none => simp
      | some v => simp
    refine ⟨?_, fun h => absurd h h2, fun _ _ _ _ => h2⟩
    constructor
    · intro h
      exact absurd h h2
    · intro h
      exact absurd (by exact_mod_cast h) hv

/-- Witness for the amended validation claim: a score-0 submission with a
nonempty testName is not rejected, and an undefined score is. -/
theorem mocktest_validation_amended_witness :
    ((postMockTest 0 "u1"
        { testName := some "Mock", score := some 0, attempted := none,
          correct := none, incorrect := none }
        { users := [], mockTests := [] }).2 ≠ MockTestResponse.validationError)
    ∧ ((postMockTest 0 "u1"
        { testName := some "Mock", score := none, attempted := none,
          correct := none, incorrect := none }
        { users := [], mockTests := [] }).2 = MockTestResponse.validationError) :=
  ⟨(mocktest_validation_amended 0 "u1" _ _).2.2 "Mock" rfl (by decide) rfl,
   (mocktest_validation_amended 0 "u1" _ _).1.2 (Or.inr rfl)⟩

/-- Inversion of a success response of POST /api/mock-test: validation
passed, the user was found, the recorded test is buildTest of the body,
the response user is the mutated found user, and the new state rewrites
the first matching user record and appends one ledger entry. -/
theorem postMockTest_success_inv
    {nowMs : ℤ} {uid : String} {body : TestBody} {st : ServerState}
    {u : User} {t : Test}
    (h : (postMockTest nowMs uid body st).2 = MockTestResponse.success u t) :
    t = buildTest nowMs body ∧
    ∃ v, findUserById st.users uid = some v ∧ u = applyTest v t ∧
      (postMockTest nowMs uid body st).1 =
        { users := updateFirstById st.users uid (fun w => applyTest w t),
          mockTests := st.mockTests ++ [mkLedgerTest v t] } := by
  by_cases hv : (testNameFalsy body.testName ∨ body.score = none : Prop)
  · simp [postMockTest, hv] at h
  · cases hfind : findUserById st.users uid with
    | none =>
      rw [postMockTest, if_neg hv, hfind] at h
      simp at h
    | some v =>
      rw [postMockTest, if_neg hv, hfind] at h
      simp only [MockTestResponse.success.injEq] at h
      obtain ⟨hu, ht⟩ := h
      have hst : (postMockTest nowMs uid body st).1 =
          { users := updateFirstById st.users uid (fun w => applyTest w (buildTest nowMs body)),
            mockTests := st.mockTests ++ [mkLedgerTest v (buildTest nowMs body)] } := by
        rw [postMockTest, if_neg hv, hfind]
      subst ht
      subst hu
      exact ⟨rfl, v, rfl, rfl, hst⟩

/-- Claim C3 (amended): for every accepted submission, the recorded
accuracy is computed from the RAW body values — round(correct/attempted
* 100) when the submitted attempted is a positive number (with an absent
correct producing NaN), and 0 when attempted is absent or nonpositive
(in particular attempted = 0 gives accuracy 0) — while the STORED
attempted field defaults to 120 whenever parseInt(attempted) is falsy,
i.e. absent, non-numeric or zero, and the stored correct/incorrect
default to 0 on absent, non-numeric or zero values. -/
theorem accuracy_raw_fields_amended :
    ∀ (nowMs : ℤ) (uid : String) (body : TestBody) (st : ServerState)
      (u : User) (t : Test),
      (postMockTest nowMs uid body st).2 = MockTestResponse.success u t →
      (body.attempted = none → t.accuracy = some 0 ∧ t.attempted = 120)
      ∧ (∀ a : ℤ, body.attempted = some a → a ≤ 0 → t.accuracy = some 0)
      ∧ (body.attempted = some 0 → t.attempted = 120)
      ∧ (∀ a : ℤ, body.attempted = some a → a ≠ 0 → t.attempted = a)
      ∧ (∀ a : ℤ, body.attempted = some a → 0 < a →
          t.accuracy = (body.correct).map (fun c => jround ((c : ℚ) / (a : ℚ) * 100)))
      ∧ (body.correct = none → t.correct = 0)
      ∧ (∀ c : ℤ, body.correct = some c → c ≠ 0 → t.correct = c)
      ∧ (body.incorrect = none → t.incorrect = 0)
      ∧ (∀ i : ℤ, body.incorrect = some i → i ≠ 0 → t.incorrect = i) := by
  intro nowMs uid body st u t h
  obtain ⟨ht, -⟩ := postMockTest_success_inv h
  subst ht
  refine ⟨?_, ?_, ?_, ?_, ?_, ?_, ?_, ?_, ?_⟩
  · intro ha
    exact ⟨by simp [buildTest, rawAccuracy, ha], by simp [buildTest, jsParseIntOr, ha]⟩
  · intro a ha hle
    simp [buildTest, rawAccuracy, ha, not_lt.2 hle]
  · intro ha
    simp [buildTest, jsParseIntOr, ha]
  · intro a ha hne
    simp [buildTest, jsParseIntOr, ha, hne]
  · intro a ha hpos
    cases hc : body.correct with
    | none => simp [buildTest, rawAccuracy, ha, hpos, hc]
    | some c => simp [buildTest, rawAccuracy, ha, hpos, hc]
  · intro hc
    simp [buildTest, jsParseIntOr, hc]
  · intro c hc hne
    simp [buildTest, jsParseIntOr, hc, hne]
  · intro hi
    simp [buildTest, jsParseIntOr, hi]
  · intro i hi hne
    simp [buildTest, jsParseIntOr, hi, hne]

/-- Witness for the amended accuracy claim: a concrete accepted
submission with attempted = 0 stores attempted 120 and accuracy 0. -/
theorem accuracy_raw_fields_amended_witness :
    ((postMockTest 0 "u1" wBodyA0 wState).2 =
        MockTestResponse.success (applyTest wUser (buildTest 0 wBodyA0)) (buildTest 0 wBodyA0))
    ∧ (buildTest 0 wBodyA0).accuracy = some 0
    ∧ (buildTest 0 wBodyA0).attempted = 120 := by
  have h : (postMockTest 0 "u1" wBodyA0 wState).2 =
      MockTestResponse.success (applyTest wUser (buildTest 0 wBodyA0)) (buildTest 0 wBodyA0) := by
    with_unfolding_all rfl
  have hc := accuracy_raw_fields_amended 0 "u1" wBodyA0 wState
    (applyTest wUser (buildTest 0 wBodyA0)) (buildTest 0 wBodyA0) h
  exact ⟨h, hc.2.1 0 (by decide) (by decide), hc.2.2.1 (by decide)⟩

/-- Population variance of a score list is nonnegative. -/
theorem variancePop_nonneg (scores : List ℤ) : 0 ≤ variancePop scores := by
  unfold variancePop
  apply div_nonneg
  · apply List.sum_nonneg
    intro x hx
    simp only [List.mem_map] at hx
    obtain ⟨s, -, rfl⟩ := hx
    positivity
  · positivity

/-- Claim C5 (confirmed): calculateConsistency returns "Insufficient
Data" for fewer than 3 tests, and otherwise classifies the population
standard deviation s of all scores: s < 5 gives "Very Consistent",
5 ≤ s < 10 "Consistent", 10 ≤ s < 15 "Moderately Consistent" and 15 ≤ s
"Needs Focus"; scores [70,70,70] give "Very Consistent" and scores
[50,90,50,90] (population stdev 20) give "Needs Focus". -/
theorem consistency_labels_spec :
    (∀ tests : List Test,
      (tests.length < 3 → calculateConsistency tests = "Insufficient Data")
      ∧ (3 ≤ tests.length →
          (calculateConsistency tests = "Very Consistent" ↔
            Real.sqrt ((variancePop (tests.map Test.score) : ℚ) : ℝ) < 5)
          ∧ (calculateConsistency tests = "Consistent" ↔
              (5 ≤ Real.sqrt ((variancePop (tests.map Test.score) : ℚ) : ℝ) ∧
               Real.sqrt ((variancePop (tests.map Test.score) : ℚ) : ℝ) < 10))
          ∧ (calculateConsistency tests = "Moderately Consistent" ↔
              (10 ≤ Real.sqrt ((variancePop (tests.map Test.score) : ℚ) : ℝ) ∧
               Real.sqrt ((variancePop (tests.map Test.score) : ℚ) : ℝ) < 15))
          ∧ (calculateConsistency tests = "Needs Focus" ↔
              15 ≤ Real.sqrt ((variancePop (tests.map Test.score) : ℚ) : ℝ))))
    ∧ calculateConsistency ([70, 70, 70].map sampleTest) = "Very Consistent"
    ∧ calculateConsistency ([50, 90, 50, 90].map sampleTest) = "Needs Focus" := by
  refine ⟨fun tests => ⟨fun h => by simp [calculateConsistency, h], fun h3 => ?_⟩,
          by with_unfolding_all rfl, by with_unfolding_all rfl⟩
  set v := variancePop (tests.map Test.score) with hvdef
  have e5 : Real.sqrt (v : ℝ) < 5 ↔ v < 25 := by
    rw [Real.sqrt_lt' (by norm_num)]
    constructor
    · intro h; exact_mod_cast (by norm_num at h ⊢; exact h : (v : ℝ) < 25)
    · intro h; norm_num; exact_mod_cast h
  have e10 : Real.sqrt (v : ℝ) < 10 ↔ v < 100 := by
    rw [Real.sqrt_lt' (by norm_num)]
    constructor
    · intro h; exact_mod_cast (by norm_num at h ⊢; exact h : (v : ℝ) < 100)
    · intro h; norm_num; exact_mod_cast h
  have e15 : Real.sqrt (v : ℝ) < 15 ↔ v < 225 := by
    rw [Real.sqrt_lt' (by norm_num)]
    constructor
    · intro h; exact_mod_cast (by norm_num at h ⊢; exact h : (v : ℝ) < 225)
    · intro h; norm_num; exact_mod_cast h
  have g5 : 5 ≤ Real.sqrt (v : ℝ) ↔ 25 ≤ v := by
    rw [Real.le_sqrt' (by norm_num)]
    constructor
    · intro h; exact_mod_cast (by norm_num at h ⊢; exact h : (25 : ℝ) ≤ (v : ℝ))
    · intro h; norm_num; exact_mod_cast h
  have g10 : 10 ≤ Real.sqrt (v : ℝ) ↔ 100 ≤ v := by
    rw [Real.le_sqrt' (by norm_num)]
    constructor
    · intro h; exact_mod_cast (by norm_num at h ⊢; exact h : (100 : ℝ) ≤ (v : ℝ))
    · intro h; norm_num; exact_mod_cast h
  have g15 : 15 ≤ Real.sqrt (v : ℝ) ↔ 225 ≤ v := by
    rw [Real.le_sqrt' (by norm_num)]
    constructor
    · intro h; exact_mod_cast (by norm_num at h ⊢; exact h : (225 : ℝ) ≤ (v : ℝ))
    · intro h; norm_num; exact_mod_cast h
  have main : (calculateConsistency tests = "Very Consistent" ↔ v < 25)
      ∧ (calculateConsistency tests = "Consistent" ↔ (25 ≤ v ∧ v < 100))
      ∧ (calculateConsistency tests = "Moderately Consistent" ↔ (100 ≤ v ∧ v < 225))
      ∧ (calculateConsistency tests = "Needs Focus" ↔ 225 ≤ v) := by
    have hcc : calculateConsistency tests =
        (if v < 25 then "Very Consistent"
         else if v < 100 then "Consistent"
         else if v < 225 then "Moderately Consistent"
         else "Needs Focus") := by
      unfold calculateConsistency
      rw [if_neg (by omega)]
    rw [hcc]
    split_ifs with h1 h2 h3' <;>
      refine ⟨?_, ?_, ?_, ?_⟩ <;> constructor <;> intro h <;>
      first
        | rfl
        | (exact absurd h (by decide))
        | linarith
        | (exact absurd rfl (by simp_all))
        | (exfalso; rcases h with ⟨ha, hb⟩; linarith)
        | (rcases h with ⟨ha, hb⟩; exact absurd rfl (by simp_all))
        | (constructor <;> linarith)
  exact ⟨main.1.trans e5.symm,
         main.2.1.trans (and_congr g5.symm e10.symm),
         main.2.2.1.trans (and_congr g10.symm e15.symm),
         main.2.2.2.trans g15.symm⟩

/-- Witness for the consistency claim: the short-history branch at a
2-test history and the classification branch at the 3-test history of
the worked example. -/
theorem consistency_labels_spec_witness :
    (([70, 70].map sampleTest).length < 3 ∧
      calculateConsistency ([70, 70].map sampleTest) = "Insufficient Data")
    ∧ (3 ≤ ([70, 70, 70].map sampleTest).length ∧
        (calculateConsistency ([70, 70, 70].map sampleTest) = "Very Consistent" ↔
          Real.sqrt ((variancePop (([70, 70, 70].map sampleTest).map Test.score) : ℚ) : ℝ) < 5)) :=
  ⟨⟨by decide, (consistency_labels_spec.1 ([70, 70].map sampleTest)).1 (by decide)⟩,
   ⟨by decide, ((consistency_labels_spec.1 ([70, 70, 70].map sampleTest)).2 (by decide)).1⟩⟩

/-- Length of a ranked list equals the length of the input list. -/
theorem length_rankFrom (r : ℕ) (l : List User) : (rankFrom r l).length = l.length := by
  induction l generalizing r with
  | nil => rfl
  | cons u tl ih => simp [rankFrom, ih]

/-- The rank fields of a ranked list are consecutive from the start rank. -/
theorem rankFrom_map_rank (r : ℕ) (l : List User) :
    (rankFrom r l).map LBEntry.rank = List.range' r l.length := by
  induction l generalizing r with
  | nil => rfl
  | cons u tl ih => simp [rankFrom, mkRow, List.range', ih]

/-- Every ranked entry is the row of some listed user. -/
theorem mem_rankFrom {e : LBEntry} :
    ∀ {r : ℕ} {l : List User}, e ∈ rankFrom r l → ∃ r' u, u ∈ l ∧ e = mkRow r' u := by
  intro r l
  induction l generalizing r with
  | nil => intro h; cases h
  | cons u tl ih =>
    intro h
    rw [rankFrom] at h
    rcases List.mem_cons.mp h with h | h
    · exact ⟨r, u, List.mem_cons_self u tl, h⟩
    · obtain ⟨r', v, hv, he⟩ := ih h
      exact ⟨r', v, List.mem_cons_of_mem u hv, he⟩

/-- Every listed user owns a ranked entry. -/
theorem rankFrom_mem_of_mem {u : User} :
    ∀ {r : ℕ} {l : List User}, u ∈ l → ∃ r', mkRow r' u ∈ rankFrom r l := by
  intro r l
  induction l generalizing r with
  | nil => intro h; cases h
  | cons v tl ih =>
    intro h
    rcases List.mem_cons.mp h with h | h
    · subst h
      exact ⟨r, by rw [rankFrom]; exact List.mem_cons_self _ _⟩
    · obtain ⟨r', hr'⟩ := ih (r := r + 1) h
      exact ⟨r', by rw [rankFrom]; exact List.mem_cons_of_mem _ hr'⟩

/-- Ranking preserves a descending-score pairwise ordering. -/
theorem rankFrom_pairwise {l : List User}
    (h : l.Pairwise (fun a b => b.averageScore ≤ a.averageScore)) (r : ℕ) :
    (rankFrom r l).Pairwise (fun e f => f.score ≤ e.score) := by
  induction l generalizing r with
  | nil => exact List.Pairwise.nil
  | cons u tl ih =>
    rw [List.pairwise_cons] at h
    rw [rankFrom, List.pairwise_cons]
    refine ⟨fun e he => ?_, ih h.2 (r + 1)⟩
    obtain ⟨r', v, hv, rfl⟩ := mem_rankFrom he
    exact h.1 v hv

/-- Claim C6 (confirmed): the leaderboard holds min(20, k) entries where
k counts the users with totalTests > 0, rank fields run 1..n in output
order, scores are descending, every entry is the row of a stored user
with totalTests > 0, and when at most 20 users are eligible every
eligible user has a row; moreover the output is exactly the ranking of a
top segment of the eligible users — a sub-multiset chosen of the
eligible users of size min(20, k), sorted descending, whose members'
averageScore dominates that of every eligible user left out — so in the
cap-binding regime the 20 highest-averageScore eligible users appear. -/
theorem leaderboard_spec :
    ∀ st : ServerState,
      (apiLeaderboard st).length = min 20 (st.users.filter (fun u => 0 < u.totalTests)).length
      ∧ (apiLeaderboard st).map LBEntry.rank = List.range' 1 (apiLeaderboard st).length
      ∧ (apiLeaderboard st).Pairwise (fun e f => f.score ≤ e.score)
      ∧ (∀ e ∈ apiLeaderboard st, ∃ u, u ∈ st.users ∧ 0 < u.totalTests ∧ ∃ r, e = mkRow r u)
      ∧ ((st.users.filter (fun u => 0 < u.totalTests)).length ≤ 20 →
          ∀ u ∈ st.users, 0 < u.totalTests → ∃ r, mkRow r u ∈ apiLeaderboard st)
      ∧ (∃ chosen rest : List User,
          List.Perm (chosen ++ rest) (st.users.filter (fun u => 0 < u.totalTests))
          ∧ apiLeaderboard st = rankFrom 1 chosen
          ∧ chosen.length = min 20 (st.users.filter (fun u => 0 < u.totalTests)).length
          ∧ (rest ≠ [] → chosen.length = 20)
          ∧ chosen.Pairwise (fun a b => b.averageScore ≤ a.averageScore)
          ∧ (∀ u ∈ rest, ∀ v ∈ chosen, u.averageScore ≤ v.averageScore)) := by
  intro st
  have htrans : ∀ a b c : User, lbLE a b → lbLE b c → lbLE a c := by
    intro a b c hab hbc
    simp only [lbLE, decide_eq_true_eq] at hab hbc ⊢
    exact le_trans hbc hab
  have htotal : ∀ a b : User, lbLE a b || lbLE b a := by
    intro a b
    simp only [lbLE, Bool.or_eq_true, decide_eq_true_eq]
    exact le_total _ _
  have hlen : (apiLeaderboard st).length =
      min 20 (st.users.filter (fun u => 0 < u.totalTests)).length := by
    unfold apiLeaderboard
    rw [length_rankFrom, List.length_take, List.length_mergeSort]
  refine ⟨hlen, ?_, ?_, ?_, ?_, ?_⟩
  · unfold apiLeaderboard
    rw [rankFrom_map_rank, length_rankFrom]
  · unfold apiLeaderboard
    apply rankFrom_pairwise
    have hsorted := @List.sorted_mergeSort User lbLE htrans htotal
      (st.users.filter (fun u => 0 < u.totalTests))
    have htake := List.Pairwise.sublist (List.take_sublist 20 _) hsorted
    refine htake.imp ?_
    intro a b hab
    simpa [lbLE] using hab
  · intro e he
    unfold apiLeaderboard at he
    obtain ⟨r', u, hu, rfl⟩ := mem_rankFrom he
    have hu2 : u ∈ (st.users.filter (fun v => 0 < v.totalTests)).mergeSort lbLE :=
      List.mem_of_mem_take hu
    rw [List.mem_mergeSort] at hu2
    rw [List.mem_filter] at hu2
    exact ⟨u, hu2.1, by simpa using hu2.2, r', rfl⟩
  · intro hle u hu htt
    have hmem : u ∈ (st.users.filter (fun v => 0 < v.totalTests)) := by
      rw [List.mem_filter]
      exact ⟨hu, by simpa using htt⟩
    have hmem2 : u ∈ (st.users.filter (fun v => 0 < v.totalTests)).mergeSort lbLE := by
      rw [List.mem_mergeSort]
      exact hmem
    have htake : ((st.users.filter (fun v => 0 < v.totalTests)).mergeSort lbLE).take 20 =
        (st.users.filter (fun v => 0 < v.totalTests)).mergeSort lbLE := by
      apply List.take_of_length_le
      rw [List.length_mergeSort]
      exact hle
    unfold apiLeaderboard
    rw [htake]
    exact rankFrom_mem_of_mem hmem2
  · refine ⟨((st.users.filter (fun u => 0 < u.totalTests)).mergeSort lbLE).take 20,
           ((st.users.filter (fun u => 0 < u.totalTests)).mergeSort lbLE).drop 20,
           ?_, ?_, ?_, ?_, ?_, ?_⟩
    · rw [List.take_append_drop]
      exact List.mergeSort_perm _ lbLE
    · unfold apiLeaderboard
      rfl
    · rw [List.length_take, List.length_mergeSort]
    · intro hne
      have h0 : 0 <
          (((st.users.filter (fun u => 0 < u.totalTests)).mergeSort lbLE).drop 20).length :=
        List.length_pos.2 hne
      rw [List.length_drop, List.length_mergeSort] at h0
      rw [List.length_take, List.length_mergeSort]
      omega
    · have hsorted := @List.sorted_mergeSort User lbLE htrans htotal
        (st.users.filter (fun u => 0 < u.totalTests))
      have htake := List.Pairwise.sublist (List.take_sublist 20 _) hsorted
      refine htake.imp ?_
      intro a b hab
      simpa [lbLE] using hab
    · have hsorted := @List.sorted_mergeSort User lbLE htrans htotal
        (st.users.filter (fun u => 0 < u.totalTests))
      rw [← List.take_append_drop 20
            ((st.users.filter (fun u => 0 < u.totalTests)).mergeSort lbLE),
          List.pairwise_append] at hsorted
      intro u hu v hv
      have hcross := hsorted.2.2 v hv u hu
      simpa [lbLE] using hcross

/-- Witness for the leaderboard claim: a one-user eligible state, where
the user receives a row, the length formula evaluates, and the top-
segment decomposition is produced. -/
theorem leaderboard_spec_witness :
    ((wActiveState.users.filter (fun u => 0 < u.totalTests)).length ≤ 20 ∧
      ∃ r, mkRow r wActive ∈ apiLeaderboard wActiveState)
    ∧ (apiLeaderboard wActiveState).length =
        min 20 (wActiveState.users.filter (fun u => 0 < u.totalTests)).length
    ∧ (∃ chosen rest : List User,
        List.Perm (chosen ++ rest) (wActiveState.users.filter (fun u => 0 < u.totalTests))
        ∧ apiLeaderboard wActiveState = rankFrom 1 chosen
        ∧ chosen.length = min 20 (wActiveState.users.filter (fun u => 0 < u.totalTests)).length
        ∧ (rest ≠ [] → chosen.length = 20)
        ∧ chosen.Pairwise (fun a b => b.averageScore ≤ a.averageScore)
        ∧ (∀ u ∈ rest, ∀ v ∈ chosen, u.averageScore ≤ v.averageScore)) :=
  ⟨⟨by decide,
    (leaderboard_spec wActiveState).2.2.2.2.1 (by decide) wActive (by decide) (by decide)⟩,
   (leaderboard_spec wActiveState).1,
   (leaderboard_spec wActiveState).2.2.2.2.2⟩

/-- Claim C7 (confirmed): on a bearer-protected route, a missing token
yields the 401 without invoking the handler (the outcome is the same for
every handler) and without touching the state; a present token that
fails verification — a bad signature, or any token issued more than 7
days before the clock — yields the 403, also leaving the state
untouched; verification itself is a pure function of token and clock. -/
theorem auth_middleware_spec :
    ∀ (ρ : Type) (nowSec : ℤ) (st : ServerState)
      (handler : TokenClaims → ServerState → ServerState × ρ),
      (protectedRoute nowSec none handler st = (st, RouteResult.missingToken401))
      ∧ (∀ h2 : TokenClaims → ServerState → ServerState × ρ,
          protectedRoute nowSec none handler st = protectedRoute nowSec none h2 st)
      ∧ (∀ t : Token, verifyToken nowSec t = none →
          protectedRoute nowSec (some t) handler st = (st, RouteResult.invalidToken403))
      ∧ (∀ t : Token, t.signatureValid = false →
          protectedRoute nowSec (some t) handler st = (st, RouteResult.invalidToken403))
      ∧ (∀ t : Token, weekSec < nowSec - t.issuedAt →
          protectedRoute nowSec (some t) handler st = (st, RouteResult.invalidToken403)) := by
  intro ρ nowSec st handler
  have hfail : ∀ t : Token, verifyToken nowSec t = none →
      protectedRoute nowSec (some t) handler st = (st, RouteResult.invalidToken403) := by
    intro t hv
    simp [protectedRoute, hv]
  refine ⟨rfl, fun h2 => rfl, hfail, ?_, ?_⟩
  · intro t hsig
    apply hfail
    simp [verifyToken, hsig]
  · intro t hold
    apply hfail
    rw [verifyToken, if_neg]
    rintro ⟨-, hlt⟩
    unfold weekSec at hold hlt
    omega

/-- Witness for the auth claim: the missing-token case on the empty
state, and an 8-days-later verification of a well-signed token. -/
theorem auth_middleware_spec_witness :
    (protectedRoute (0 : ℤ) none (fun _ s => (s, (0 : ℕ))) { users := [], mockTests := [] } =
      ({ users := [], mockTests := [] }, RouteResult.missingToken401))
    ∧ (weekSec < (691200 : ℤ) - wToken.issuedAt ∧
       protectedRoute 691200 (some wToken) (fun _ s => (s, (0 : ℕ)))
           { users := [], mockTests := [] } =
         ({ users := [], mockTests := [] }, RouteResult.invalidToken403)) :=
  ⟨(auth_middleware_spec ℕ 0 { users := [], mockTests := [] } (fun _ s => (s, 0))).1,
   ⟨by decide,
    (auth_middleware_spec ℕ 691200 { users := [], mockTests := [] }
        (fun _ s => (s, 0))).2.2.2.2 wToken (by decide)⟩⟩

/-- The googleId key never survives the object spread. -/
theorem stripGoogleId_not_mem (fields : List (String × JVal)) :
    "googleId" ∉ (stripGoogleId fields).map Prod.fst := by
  intro h
  rcases List.mem_map.mp h with ⟨kv, hkv, hfst⟩
  rw [stripGoogleId, List.mem_filter] at hkv
  have h2 := hkv.2
  simp only [decide_eq_true_eq] at h2
  exact h2 hfst

/-- The spread keeps exactly the non-googleId fields. -/
theorem mem_stripGoogleId {kv : String × JVal} {fields : List (String × JVal)} :
    kv ∈ stripGoogleId fields ↔ kv ∈ fields ∧ kv.1 ≠ "googleId" := by
  rw [stripGoogleId, List.mem_filter]
  simp

/-- Claim C9 (confirmed): when the user is found, GET /api/user and
GET /api/user/:email answer 200 with exactly the user's serialized
fields minus googleId — the googleId key appears in neither body — and
an unknown id/email answers 404 with {error: "User not found"}. -/
theorem user_routes_no_googleId :
    ∀ (st : ServerState) (uid email : String) (u : User),
      (st.users.find? (fun v => v.id = uid) = some u →
        (getApiUser uid st).1 = 200
        ∧ "googleId" ∉ ((getApiUser uid st).2.map Prod.fst)
        ∧ (∀ kv, kv ∈ (getApiUser uid st).2 ↔ (kv ∈ userJson u ∧ kv.1 ≠ "googleId")))
      ∧ (st.users.find? (fun v => v.id = uid) = none →
          getApiUser uid st = (404, [("error", JVal.str "User not found")]))
      ∧ (st.users.find? (fun v => v.email = email) = some u →
          (getApiUserByEmail email st).1 = 200
          ∧ "googleId" ∉ ((getApiUserByEmail email st).2.map Prod.fst)
          ∧ (∀ kv, kv ∈ (getApiUserByEmail email st).2 ↔ (kv ∈ userJson u ∧ kv.1 ≠ "googleId")))
      ∧ (st.users.find? (fun v => v.email = email) = none →
          getApiUserByEmail email st = (404, [("error", JVal.str "User not found")])) := by
  intro st uid email u
  refine ⟨fun hfind => ?_, fun hfind => ?_, fun hfind => ?_, fun hfind => ?_⟩
  · rw [getApiUser, hfind]
    exact ⟨rfl, stripGoogleId_not_mem _, fun kv => mem_stripGoogleId⟩
  · rw [getApiUser, hfind]
  · rw [getApiUserByEmail, hfind]
    exact ⟨rfl, stripGoogleId_not_mem _, fun kv => mem_stripGoogleId⟩
  · rw [getApiUserByEmail, hfind]

/-- Witness for the user-route claim: a one-user state, looked up by its
id (200 without googleId) and by an unknown email (404). -/
theorem user_routes_no_googleId_witness :
    (wState.users.find? (fun v => v.id = "u1") = some wUser ∧
      (getApiUser "u1" wState).1 = 200 ∧
      "googleId" ∉ ((getApiUser "u1" wState).2.map Prod.fst))
    ∧ (wState.users.find? (fun v => v.email = "nobody") = none ∧
       getApiUserByEmail "nobody" wState = (404, [("error", JVal.str "User not found")])) := by
  have h1 : wState.users.find? (fun v => v.id = "u1") = some wUser := by decide
  have h2 : wState.users.find? (fun v => v.email = "nobody") = none := by decide
  have c1 := (user_routes_no_googleId wState "u1" "nobody" wUser).1 h1
  have c2 := (user_routes_no_googleId wState "u1" "nobody" wUser).2.2.2 h2
  exact ⟨⟨h1, c1.1, c1.2.1⟩, h2, c2⟩

/-- Seeding a fold of max never lowers the result below the seed. -/
theorem le_foldl_max (b : ℤ) (l : List ℤ) : b ≤ l.foldl max b := by
  induction l generalizing b with
  | nil => exact le_refl b
  | cons x tl ih => exact le_trans (le_max_left b x) (ih (max b x))

/-- A fold of max dominates every list element. -/
theorem mem_le_foldl_max {s : ℤ} {l : List ℤ} (h : s ∈ l) (b : ℤ) : s ≤ l.foldl max b := by
  induction l generalizing b with
  | nil => cases h
  | cons x tl ih =>
    rcases List.mem_cons.mp h with h | h
    · subst h
      exact le_trans (le_max_right b s) (le_foldl_max _ _)
    · exact ih h _

/-- A fold of max is the seed or one of the list elements. -/
theorem foldl_max_mem (l : List ℤ) (b : ℤ) : l.foldl max b = b ∨ l.foldl max b ∈ l := by
  induction l generalizing b with
  | nil => exact Or.inl rfl
  | cons x tl ih =>
    rw [List.foldl_cons]
    rcases ih (max b x) with h | h
    · rcases max_cases b x with ⟨he, -⟩ | ⟨he, -⟩
      · exact Or.inl (by rw [h, he])
      · exact Or.inr (by rw [h, he]; exact List.mem_cons_self _ _)
    · exact Or.inr (List.mem_cons_of_mem _ h)

/-- The per-user submission mutation does not touch the id. -/
theorem applyTest_id (u : User) (t : Test) : (applyTest u t).id = u.id := rfl

/-- Each submission step can only raise bestScore. -/
theorem applyTest_bestScore_mono (u : User) (t : Test) :
    u.bestScore ≤ (applyTest u t).bestScore := by
  simp [applyTest]

/-- The aggregate invariant is preserved by each submission step. -/
theorem applyTest_AggInv {u : User} (h : AggInv u) (t : Test) : AggInv (applyTest u t) := by
  obtain ⟨h1, h2, h3⟩ := h
  refine ⟨?_, ?_, ?_⟩
  · simp [applyTest, h1]
  · intro hne
    show jround ((sumScores (u.mockTests ++ [t]) : ℚ) / ((u.totalTests + 1 : ℕ) : ℚ)) = _
    rw [h1]
    simp [applyTest]
  · show max u.bestScore t.score = _
    simp only [applyTest, List.map_append, List.foldl_append, List.map_cons, List.map_nil,
      List.foldl_cons, List.foldl_nil]
    rw [h3]

/-- Folding submissions appends the submitted tests to the history. -/
theorem foldl_applyTest_mockTests :
    ∀ (ts : List Test) (u : User), (ts.foldl applyTest u).mockTests = u.mockTests ++ ts := by
  intro ts
  induction ts with
  | nil => intro u; simp
  | cons t tl ih =>
    intro u
    rw [List.foldl_cons, ih]
    simp [applyTest]

/-- The aggregate invariant is preserved by any submission sequence. -/
theorem foldl_applyTest_AggInv :
    ∀ (ts : List Test) {u : User}, AggInv u → AggInv (ts.foldl applyTest u) := by
  intro ts
  induction ts with
  | nil => intro u h; exact h
  | cons t tl ih =>
    intro u h
    rw [List.foldl_cons]
    exact ih (applyTest_AggInv h t)

/-- A submission sequence never changes the user's id. -/
theorem foldl_applyTest_id :
    ∀ (ts : List Test) (u : User), (ts.foldl applyTest u).id = u.id := by
  intro ts
  induction ts with
  | nil => intro u; rfl
  | cons t tl ih =>
    intro u
    rw [List.foldl_cons, ih, applyTest_id]

/-- One accepted submission on a one-user state: the user is mutated by
applyTest and one ledger entry is appended. -/
theorem postMockTest_single_step {uid : String} {u : User} {led : List LedgerTest}
    {p : ℤ × TestBody} (hv : validBody p.2) (hid : u.id = uid) :
    (postMockTest p.1 uid p.2 { users := [u], mockTests := led }).1 =
      { users := [applyTest u (buildTest p.1 p.2)],
        mockTests := led ++ [mkLedgerTest u (buildTest p.1 p.2)] } := by
  have hneg : ¬ (testNameFalsy p.2.testName ∨ p.2.score = none : Prop) := by
    rintro (hc | hc)
    · rw [hv.1] at hc
      cases hc
    · exact hv.2 hc
  have hfind : findUserById [u] uid = some u := by
    simp [findUserById, List.find?, hid]
  unfold postMockTest
  rw [if_neg hneg, hfind]
  simp [updateFirstById, hid]

/-- Running a sequence of accepted submissions on a one-user state folds
applyTest over the built tests. -/
theorem submitAll_single {uid : String} :
    ∀ (subs : List (ℤ × TestBody)) (u : User) (led : List LedgerTest),
      (∀ p ∈ subs, validBody p.2) → u.id = uid →
      (submitAll uid subs { users := [u], mockTests := led }).users =
        [subs.foldl (fun v p => applyTest v (buildTest p.1 p.2)) u] := by
  intro subs
  induction subs with
  | nil => intro u led hv hid; rfl
  | cons p rest ih =>
    intro u led hv hid
    have hstep := @postMockTest_single_step uid u led p (hv p (List.mem_cons_self _ _)) hid
    show (submitAll uid rest (postMockTest p.1 uid p.2 { users := [u], mockTests := led }).1).users = _
    rw [hstep, List.foldl_cons]
    exact ih (applyTest u (buildTest p.1 p.2)) _
      (fun q hq => hv q (List.mem_cons_of_mem _ hq)) (by rw [applyTest_id]; exact hid)

/-- Claim C1 (amended): after every sequence of N accepted submissions
from a freshly created user, totalTests equals the history length, which
is N; averageScore is the rounded mean of the N recorded scores (for
N ≥ 1); and bestScore is the running maximum — seeded by the initial 0 —
of the recorded scores, non-decreasing at every step, dominating every
recorded score and equal to some recorded score whenever any recorded
score is nonnegative. -/
theorem mocktest_aggregates_invariant_amended :
    ∀ (nowMs0 : ℤ) (gid em nm av : String) (subs : List (ℤ × TestBody)),
      (∀ p ∈ subs, validBody p.2) →
      ∃ uN : User,
        (submitAll (freshUser nowMs0 gid em nm av).id subs
            { users := [freshUser nowMs0 gid em nm av], mockTests := [] }).users = [uN]
        ∧ uN.totalTests = uN.mockTests.length
        ∧ uN.mockTests.length = subs.length
        ∧ (subs ≠ [] → uN.averageScore =
            jround ((sumScores uN.mockTests : ℚ) / (uN.mockTests.length : ℚ)))
        ∧ uN.bestScore = (uN.mockTests.map Test.score).foldl max 0
        ∧ (∀ s ∈ uN.mockTests.map Test.score, s ≤ uN.bestScore)
        ∧ ((∃ s ∈ uN.mockTests.map Test.score, 0 ≤ s) →
            uN.bestScore ∈ uN.mockTests.map Test.score)
        ∧ (∀ (u : User) (t : Test), u.bestScore ≤ (applyTest u t).bestScore) := by
  intro nowMs0 gid em nm av subs hv
  have hfold : subs.foldl (fun v p => applyTest v (buildTest p.1 p.2))
        (freshUser nowMs0 gid em nm av) =
      (subs.map (fun p => buildTest p.1 p.2)).foldl applyTest
        (freshUser nowMs0 gid em nm av) := by
    rw [List.foldl_map]
  set u0 := freshUser nowMs0 gid em nm av with hu0
  set ts := subs.map (fun p => buildTest p.1 p.2) with hts
  set uN := ts.foldl applyTest u0 with huN
  have hinv0 : AggInv u0 := ⟨rfl, fun h => absurd rfl h, rfl⟩
  have hinv : AggInv uN := foldl_applyTest_AggInv ts hinv0
  have hmt : uN.mockTests = ts := by
    rw [huN, foldl_applyTest_mockTests]
    simp [hu0, freshUser]
  have hlen : uN.mockTests.length = subs.length := by
    rw [hmt, hts, List.length_map]
  refine ⟨uN, ?_, hinv.1, hlen, ?_, hinv.2.2, ?_, ?_, applyTest_bestScore_mono⟩
  · rw [submitAll_single subs u0 [] hv rfl, hfold]
  · intro hne
    apply hinv.2.1
    rw [hmt, hts]
    simpa using hne
  · intro s hs
    rw [hinv.2.2]
    exact mem_le_foldl_max hs 0
  · rintro ⟨s, hs, h0⟩
    rcases foldl_max_mem (uN.mockTests.map Test.score) 0 with h | h
    · have hle := mem_le_foldl_max hs 0
      rw [h] at hle
      have hs0 : s = 0 := le_antisymm hle h0
      rw [hinv.2.2, h, ← hs0]
      exact hs
    · rw [hinv.2.2]
      exact h

/-- Witness for the amended aggregate claim: a single accepted
submission from a fresh user. -/
theorem mocktest_aggregates_invariant_amended_witness :
    (∀ p ∈ [((2000 : ℤ), wBody)], validBody p.2)
    ∧ ∃ uN : User,
        (submitAll (freshUser 1000 "g" "e" "n" "a").id [((2000 : ℤ), wBody)]
            { users := [freshUser 1000 "g" "e" "n" "a"], mockTests := [] }).users = [uN]
        ∧ uN.totalTests = uN.mockTests.length
        ∧ uN.mockTests.length = [((2000 : ℤ), wBody)].length
        ∧ ([((2000 : ℤ), wBody)] ≠ ([] : List (ℤ × TestBody)) → uN.averageScore =
            jround ((sumScores uN.mockTests : ℚ) / (uN.mockTests.length : ℚ)))
        ∧ uN.bestScore = (uN.mockTests.map Test.score).foldl max 0
        ∧ (∀ s ∈ uN.mockTests.map Test.score, s ≤ uN.bestScore)
        ∧ ((∃ s ∈ uN.mockTests.map Test.score, 0 ≤ s) →
            uN.bestScore ∈ uN.mockTests.map Test.score)
        ∧ (∀ (u : User) (t : Test), u.bestScore ≤ (applyTest u t).bestScore) :=
  ⟨by decide,
   mocktest_aggregates_invariant_amended 1000 "g" "e" "n" "a" [((2000 : ℤ), wBody)] (by decide)⟩

/-- A successful find splits the list around the first id match. -/
theorem find?_id_split {l : List User} {uid : String} {u : User}
    (h : l.find? (fun v => v.id = uid) = some u) :
    ∃ l₁ l₂, l = l₁ ++ u :: l₂ ∧ (∀ w ∈ l₁, w.id ≠ uid) ∧ u.id = uid := by
  induction l with
  | nil => cases h
  | cons x tl ih =>
    by_cases hx : x.id = uid
    · rw [List.find?_cons_of_pos _ (by simpa using hx)] at h
      obtain rfl : x = u := by injection h
      exact ⟨[], tl, rfl, by simp, hx⟩
    · rw [List.find?_cons_of_neg _ (by simpa using hx)] at h
      obtain ⟨l₁, l₂, hsplit, hne, hid⟩ := ih h
      exact ⟨x :: l₁, l₂, by rw [hsplit, List.cons_append],
             fun w hw => by rcases List.mem_cons.mp hw with hw | hw
                            · subst hw; exact hx
                            · exact hne w hw, hid⟩

/-- Updating the first id match rewrites exactly the split point. -/
theorem updateFirstById_append {l₁ : List User} {u : User} {uid : String}
    (h1 : ∀ w ∈ l₁, w.id ≠ uid) (hu : u.id = uid) (l₂ : List User) (f : User → User) :
    updateFirstById (l₁ ++ u :: l₂) uid f = l₁ ++ f u :: l₂ := by
  induction l₁ with
  | nil => simp [updateFirstById, hu]
  | cons x tl ih =>
    rw [List.cons_append, updateFirstById, if_neg (h1 x (List.mem_cons_self _ _)),
        ih (fun w hw => h1 w (List.mem_cons_of_mem _ hw)), List.cons_append]

/-- Claim C10 (confirmed): a successful POST /api/mock-test rewrites only
the first user record matching the submitting id — appending exactly one
test to its history, bumping totalTests, leaving id, googleId, email,
name, avatar, role, joinedDate and lastLogin untouched — keeps every
other user record in place, and appends exactly one denormalized entry
(the test with the user's id, email and name) to the global ledger. -/
theorem mocktest_frame_spec :
    ∀ (nowMs : ℤ) (uid : String) (body : TestBody) (st : ServerState)
      (u : User) (t : Test),
      (postMockTest nowMs uid body st).2 = MockTestResponse.success u t →
      ∃ l₁ l₂ v,
        st.users = l₁ ++ v :: l₂
        ∧ (∀ w ∈ l₁, w.id ≠ uid) ∧ v.id = uid
        ∧ (postMockTest nowMs uid body st).1.users = l₁ ++ applyTest v t :: l₂
        ∧ u = applyTest v t
        ∧ t = buildTest nowMs body
        ∧ (postMockTest nowMs uid body st).1.mockTests = st.mockTests ++ [mkLedgerTest v t]
        ∧ (applyTest v t).mockTests = v.mockTests ++ [t]
        ∧ (applyTest v t).totalTests = v.totalTests + 1
        ∧ (applyTest v t).id = v.id ∧ (applyTest v t).googleId = v.googleId
        ∧ (applyTest v t).email = v.email ∧ (applyTest v t).name = v.name
        ∧ (applyTest v t).avatar = v.avatar ∧ (applyTest v t).role = v.role
        ∧ (applyTest v t).joinedDate = v.joinedDate ∧ (applyTest v t).lastLogin = v.lastLogin
        ∧ (mkLedgerTest v t).test = t ∧ (mkLedgerTest v t).userId = v.id
        ∧ (mkLedgerTest v t).userEmail = v.email ∧ (mkLedgerTest v t).userName = v.name := by
  intro nowMs uid body st u t h
  obtain ⟨ht, v, hfind, hu, hst⟩ := postMockTest_success_inv h
  obtain ⟨l₁, l₂, hsplit, hne, hid⟩ := find?_id_split hfind
  have husers : (postMockTest nowMs uid body st).1.users = l₁ ++ applyTest v t :: l₂ := by
    rw [hst]
    show updateFirstById st.users uid (fun w => applyTest w t) = l₁ ++ applyTest v t :: l₂
    rw [hsplit]
    exact updateFirstById_append hne hid l₂ _
  have hledger : (postMockTest nowMs uid body st).1.mockTests =
      st.mockTests ++ [mkLedgerTest v t] := by
    rw [hst]
  refine ⟨l₁, l₂, v, hsplit, hne, hid, husers, hu, ht, hledger, ?_⟩
  repeat constructor

/-- Witness for the frame claim: one accepted submission into a one-user
state. -/
theorem mocktest_frame_spec_witness :
    ((postMockTest 0 "u1" wBody wState).2 =
      MockTestResponse.success (applyTest wUser (buildTest 0 wBody)) (buildTest 0 wBody))
    ∧ ∃ l₁ l₂ v,
        wState.users = l₁ ++ v :: l₂
        ∧ (∀ w ∈ l₁, w.id ≠ "u1") ∧ v.id = "u1"
        ∧ (postMockTest 0 "u1" wBody wState).1.users =
            l₁ ++ applyTest v (buildTest 0 wBody) :: l₂
        ∧ applyTest wUser (buildTest 0 wBody) = applyTest v (buildTest 0 wBody)
        ∧ buildTest 0 wBody = buildTest 0 wBody
        ∧ (postMockTest 0 "u1" wBody wState).1.mockTests =
            wState.mockTests ++ [mkLedgerTest v (buildTest 0 wBody)]
        ∧ (applyTest v (buildTest 0 wBody)).mockTests = v.mockTests ++ [buildTest 0 wBody]
        ∧ (applyTest v (buildTest 0 wBody)).totalTests = v.totalTests + 1
        ∧ (applyTest v (buildTest 0 wBody)).id = v.id
        ∧ (applyTest v (buildTest 0 wBody)).googleId = v.googleId
        ∧ (applyTest v (buildTest 0 wBody)).email = v.email
        ∧ (applyTest v (buildTest 0 wBody)).name = v.name
        ∧ (applyTest v (buildTest 0 wBody)).avatar = v.avatar
        ∧ (applyTest v (buildTest 0 wBody)).role = v.role
        ∧ (applyTest v (buildTest 0 wBody)).joinedDate = v.joinedDate
        ∧ (applyTest v (buildTest 0 wBody)).lastLogin = v.lastLogin
        ∧ (mkLedgerTest v (buildTest 0 wBody)).test = buildTest 0 wBody
        ∧ (mkLedgerTest v (buildTest 0 wBody)).userId = v.id
        ∧ (mkLedgerTest v (buildTest 0 wBody)).userEmail = v.email
        ∧ (mkLedgerTest v (buildTest 0 wBody)).userName = v.name := by
  have h : (postMockTest 0 "u1" wBody wState).2 =
      MockTestResponse.success (applyTest wUser (buildTest 0 wBody)) (buildTest 0 wBody) := by
    with_unfolding_all rfl
  exact ⟨h, mocktest_frame_spec 0 "u1" wBody wState
    (applyTest wUser (buildTest 0 wBody)) (buildTest 0 wBody) h⟩
